import Mathlib

/-!
Verification of the record-fusion, domain-resolution, enrichment and
campaign-push logic of the Texas school-district lead-generation pipeline
(`get_all_texas_districts_domains.py`, `clay_enrichment.py`,
`instantly_push.py`).

Python dictionaries are modelled as association lists `List (String × α)`
with Python dict semantics: `aget` is `d.get(k)` (first occurrence wins),
`ains` is the assignment `d[k] = v` (replaces the value in place when the
key exists, appends otherwise, preserving insertion order), and `aupd` is
`d.update(d2)`.  A genuine Python dict never has duplicate keys, which is
expressed by the predicate `nodupKeys` where a proof needs it.
-/

/-- Python `d.get(k)`: the value at the first occurrence of key `k`. -/
def aget {α : Type} : List (String × α) → String → Option α
  | [], _ => none
  | (k2, v) :: rest, k => if k2 = k then some v else aget rest k

/-- Python `d[k] = v`: replace the value at the first occurrence of `k`
in place, append `(k, v)` when the key is absent. -/
def ains {α : Type} : List (String × α) → String → α → List (String × α)
  | [], k, v => [(k, v)]
  | (k2, v2) :: rest, k, v =>
    if k2 = k then (k2, v) :: rest else (k2, v2) :: ains rest k v

/-- Python `d.update(d2)`: assign every key/value pair of `d2` into `d`,
in order. -/
def aupd {α : Type} (d d2 : List (String × α)) : List (String × α) :=
  d2.foldl (fun acc kv => ains acc kv.1 kv.2) d

/-- The keys of an association list, in order. -/
def keysOf {α : Type} (l : List (String × α)) : List String := l.map Prod.fst

/-- The list has no duplicate keys (true of every real Python dict). -/
def nodupKeys {α : Type} (l : List (String × α)) : Prop := (keysOf l).Nodup

/-- The value at the last occurrence of key `k` (what a sequence of
assignments leaves behind). -/
def alast {α : Type} (l : List (String × α)) (k : String) : Option α :=
  aget l.reverse k

theorem aget_ains_self {α : Type} (l : List (String × α)) (k : String) (v : α) :
    aget (ains l k v) k = some v := by
  induction l with
  | nil => simp [ains, aget]
  | cons p rest ih =>
    obtain ⟨k2, v2⟩ := p
    by_cases h : k2 = k
    · simp [ains, aget, h]
    · simp [ains, aget, h, ih]

theorem mem_keysOf_cons {α : Type} (k k2 : String) (v : α) (rest : List (String × α)) :
    k ∈ keysOf ((k2, v) :: rest) ↔ k = k2 ∨ k ∈ keysOf rest := by
  simp [keysOf]

instance nodupKeysDecidable {α : Type} (l : List (String × α)) : Decidable (nodupKeys l) :=
  inferInstanceAs (Decidable (keysOf l).Nodup)

theorem aget_ains_ne {α : Type} (l : List (String × α)) (k : String) (v : α)
    (k2 : String) (h : k2 ≠ k) : aget (ains l k v) k2 = aget l k2 := by
  induction l with
  | nil => simp [ains, aget, Ne.symm h]
  | cons p rest ih =>
    obtain ⟨k3, v3⟩ := p
    by_cases h3 : k3 = k
    · subst h3
      simp [ains, aget, Ne.symm h]
    · by_cases h2 : k3 = k2
      · subst h2
        simp [ains, aget, h3, h, aget]
      · simp [ains, aget, h3, h2, ih]

theorem aget_append {α : Type} (l1 l2 : List (String × α)) (k : String) :
    aget (l1 ++ l2) k = (aget l1 k).or (aget l2 k) := by
  induction l1 with
  | nil => simp [aget]
  | cons p rest ih =>
    obtain ⟨k2, v⟩ := p
    by_cases h : k2 = k
    · simp [aget, h]
    · simp [aget, h, ih]

theorem alast_cons {α : Type} (p : String × α) (l : List (String × α)) (k : String) :
    alast (p :: l) k = (alast l k).or (aget [p] k) := by
  simp only [alast, List.reverse_cons]
  exact aget_append l.reverse [p] k

theorem aget_aupd {α : Type} (d d2 : List (String × α)) (k : String) :
    aget (aupd d d2) k = (alast d2 k).or (aget d k) := by
  induction d2 generalizing d with
  | nil => simp [aupd, alast, aget]
  | cons p rest ih =>
    obtain ⟨k2, v⟩ := p
    have hstep : aupd d ((k2, v) :: rest) = aupd (ains d k2 v) rest := rfl
    rw [hstep, ih, alast_cons]
    by_cases h : k2 = k
    · subst h
      simp only [aget, if_pos rfl]
      cases alast rest k2 with
      | none => simp [aget_ains_self]
      | some v2 => simp
    · have hne : k ≠ k2 := fun hh => h hh.symm
      simp only [aget, if_neg h]
      cases alast rest k with
      | none => simp [aget_ains_ne d k2 v k hne]
      | some v2 => simp

theorem aget_eq_none_iff {α : Type} (l : List (String × α)) (k : String) :
    aget l k = none ↔ k ∉ keysOf l := by
  induction l with
  | nil => simp [aget, keysOf]
  | cons p rest ih =>
    obtain ⟨k2, v⟩ := p
    rw [mem_keysOf_cons]
    by_cases h : k2 = k
    · subst h
      simp [aget]
    · simp [aget, h, ih, Ne.symm h]

theorem alast_eq_aget_of_nodup {α : Type} (l : List (String × α)) (k : String)
    (h : nodupKeys l) : alast l k = aget l k := by
  induction l with
  | nil => rfl
  | cons p rest ih =>
    obtain ⟨k2, v⟩ := p
    have hrest : nodupKeys rest := by
      simpa [nodupKeys, keysOf] using (List.Nodup.of_cons (by simpa [nodupKeys, keysOf] using h))
    have hnotin : k2 ∉ keysOf rest := by
      have := h
      simp only [nodupKeys, keysOf, List.map_cons, List.nodup_cons] at this
      exact this.1
    rw [alast_cons, ih hrest]
    by_cases hk : k2 = k
    · subst hk
      have : aget rest k2 = none := (aget_eq_none_iff rest k2).2 hnotin
      simp [this, aget]
    · simp [aget, hk]

/-! ## Record Fusion Engine (`TexasDistrictScraper.run`, lines 463-488)

A provider record is a Python dict with string values.  `run` builds
`all_districts`, a dict keyed by `d["name"]`: Texas Tribune records are
processed first (`update` on an already-seen name), then Wikipedia
records (skipped entirely on an already-seen name).
-/

/-- A scraped district record: a Python dict with string values. -/
abbrev DRec := List (String × String)

/-- The mapping `all_districts` built by `TexasDistrictScraper.run`. -/
abbrev DistMap := List (String × DRec)

/-- The key under which `run` files a record: `d["name"]`. -/
def recName (d : DRec) : String := (aget d "name").getD ""

/-- One Tribune record processed by `run`: unseen names are inserted as-is,
seen names get `all_districts[name].update(d)`. -/
def fuseStep1 (m : DistMap) (d : DRec) : DistMap :=
  match aget m (recName d) with
  | none => ains m (recName d) d
  | some existing => ains m (recName d) (aupd existing d)

/-- One Wikipedia record processed by `run`: unseen names are inserted
as-is, seen names are skipped. -/
def fuseStep2 (m : DistMap) (d : DRec) : DistMap :=
  match aget m (recName d) with
  | none => ains m (recName d) d
  | some _ => m

/-- The merge portion of `TexasDistrictScraper.run`: fold the Tribune
list, then the Wikipedia list, into the (initially empty) mapping. -/
def fuseRun (tribune wiki : List DRec) : DistMap :=
  wiki.foldl fuseStep2 (tribune.foldl fuseStep1 [])

/-- Claim C1 counterexample: two Tribune records named `A` disagree on the
populated field `city` (`X` first, then `Y`).  The claim says the earlier,
already-populated value `X` is kept; the code's `dict.update` overwrites
it, so the fused record carries `Y`. -/
theorem fusion_keep_populated_cex :
    fuseRun [[("name", "A"), ("city", "X")], [("name", "A"), ("city", "Y")]] [] =
      [("A", [("name", "A"), ("city", "Y")])] ∧
    aget [("name", "A"), ("city", "Y")] "city" ≠ some "X" := by
  constructor
  · rfl
  · decide

/-- Claim C1 (amended): when a record named like an existing entry
arrives, a Tribune record overwrites the existing entry field-by-field
with `dict.update` semantics (every field carried by the new record takes
the new record's value, fields absent from the new record are kept), while
a Wikipedia record whose name has been seen is skipped entirely, leaving
the mapping unchanged — so where the two sources disagree the earlier
(Tribune) value is retained. -/
theorem fusion_seen_key_merge (m : DistMap) (d e : DRec) (k : String)
    (hd : nodupKeys d) (he : aget m (recName d) = some e) :
    aget (fuseStep1 m d) (recName d) = some (aupd e d) ∧
    aget (aupd e d) k = (aget d k).or (aget e k) ∧
    fuseStep2 m d = m := by
  refine ⟨?_, ?_, ?_⟩
  · simp [fuseStep1, he, aget_ains_self]
  · rw [aget_aupd, alast_eq_aget_of_nodup d k hd]
  · simp [fuseStep2, he]

/-- Claim C1 witness: concrete instance of the amended merge behaviour. -/
theorem fusion_seen_key_merge_witness :
    aget (fuseStep1 [("A", [("name", "A"), ("city", "X")])]
        [("name", "A"), ("enrollment", "5")]) "A" =
      some (aupd [("name", "A"), ("city", "X")] [("name", "A"), ("enrollment", "5")]) ∧
    aget (aupd [("name", "A"), ("city", "X")] [("name", "A"), ("enrollment", "5")]) "city" =
      (aget [("name", "A"), ("enrollment", "5")] "city").or
        (aget [("name", "A"), ("city", "X")] "city") ∧
    fuseStep2 [("A", [("name", "A"), ("city", "X")])] [("name", "A"), ("enrollment", "5")] =
      [("A", [("name", "A"), ("city", "X")])] := by
  have h := fusion_seen_key_merge [("A", [("name", "A"), ("city", "X")])]
    [("name", "A"), ("enrollment", "5")] [("name", "A"), ("city", "X")] "city"
    (by decide) (by decide)
  simpa [recName] using h

/-- Claim C2 counterexample: the code keys `all_districts` by the raw
name string, with no trimming or whitespace collapsing, so the
whitespace-variant names produce two records where the claim predicts
one. -/
theorem fusion_dedup_ws_cex :
    (fuseRun [[("name", "Frisco ISD")], [("name", "  Frisco ISD ")]] []).length = 2 ∧
    (2 : Nat) ≠ 1 := by
  constructor
  · rfl
  · decide

/-- Claim C2 (amended): the dedup key is the exact, unnormalized name
string: two records fuse into one exactly when their names are
character-identical, so names differing only in leading/trailing or
internal whitespace remain two records, just as names differing in
wording do. -/
theorem fusion_dedup_exact_name (r1 r2 : DRec) :
    (fuseRun [r1, r2] []).length = (if recName r2 = recName r1 then 1 else 2) ∧
    (fuseRun [[("name", "Frisco ISD")], [("name", "Frisco ISD")]] []).length = 1 ∧
    (fuseRun [[("name", "Frisco ISD")], [("name", "  Frisco ISD ")]] []).length = 2 ∧
    (fuseRun [[("name", "Frisco ISD")], [("name", "Frisco Independent School District")]] []).length = 2 := by
  refine ⟨?_, rfl, rfl, rfl⟩
  by_cases h : recName r2 = recName r1
  · simp [fuseRun, fuseStep1, aget, ains, h]
  · have h2 : recName r1 ≠ recName r2 := fun hh => h hh.symm
    simp [fuseRun, fuseStep1, aget, ains, h, h2]

/-! ## Further association-list lemmas, toward fusion idempotence -/

theorem aget_isSome_iff_mem {α : Type} (l : List (String × α)) (k : String) :
    (aget l k).isSome ↔ k ∈ keysOf l := by
  cases hg : aget l k with
  | none =>
    have h := (aget_eq_none_iff l k).1 hg
    simpa using h
  | some v =>
    simp only [Option.isSome_some, true_iff]
    by_contra hmem
    have hnone := (aget_eq_none_iff l k).2 hmem
    rw [hg] at hnone
    exact Option.noConfusion hnone

theorem keysOf_ains_mem {α : Type} (l : List (String × α)) (k : String) (v : α)
    (h : k ∈ keysOf l) : keysOf (ains l k v) = keysOf l := by
  induction l with
  | nil => simp [keysOf] at h
  | cons p rest ih =>
    obtain ⟨k2, v2⟩ := p
    by_cases h2 : k2 = k
    · simp [ains, keysOf, h2]
    · rw [mem_keysOf_cons] at h
      rcases h with h | h
      · exact absurd h.symm h2
      · simp [ains, keysOf, h2]
        simpa [keysOf] using ih h

theorem keysOf_ains_notmem {α : Type} (l : List (String × α)) (k : String) (v : α)
    (h : k ∉ keysOf l) : keysOf (ains l k v) = keysOf l ++ [k] := by
  induction l with
  | nil => simp [ains, keysOf]
  | cons p rest ih =>
    obtain ⟨k2, v2⟩ := p
    rw [mem_keysOf_cons] at h
    push_neg at h
    have h2 : k2 ≠ k := fun hh => h.1 hh.symm
    simp only [ains, if_neg h2, keysOf, List.map_cons]
    rw [show List.map Prod.fst (ains rest k v) = keysOf (ains rest k v) from rfl, ih h.2]
    simp [keysOf]

theorem mem_keysOf_ains_self {α : Type} (l : List (String × α)) (k : String) (v : α) :
    k ∈ keysOf (ains l k v) := by
  by_cases h : k ∈ keysOf l
  · rw [keysOf_ains_mem l k v h]
    exact h
  · rw [keysOf_ains_notmem l k v h]
    simp

theorem mem_keysOf_ains_mono {α : Type} (l : List (String × α)) (k : String) (v : α)
    (k2 : String) (h : k2 ∈ keysOf l) : k2 ∈ keysOf (ains l k v) := by
  by_cases hk : k ∈ keysOf l
  · rwa [keysOf_ains_mem l k v hk]
  · rw [keysOf_ains_notmem l k v hk]
    simp [h]

theorem nodupKeys_ains {α : Type} (l : List (String × α)) (k : String) (v : α)
    (h : nodupKeys l) : nodupKeys (ains l k v) := by
  by_cases hk : k ∈ keysOf l
  · unfold nodupKeys
    rw [keysOf_ains_mem l k v hk]
    exact h
  · unfold nodupKeys
    rw [keysOf_ains_notmem l k v hk]
    simpa [List.nodup_append] using ⟨h, fun hh => hk hh⟩

theorem nodupKeys_aupd {α : Type} (e d : List (String × α)) (h : nodupKeys e) :
    nodupKeys (aupd e d) := by
  induction d generalizing e with
  | nil => exact h
  | cons p rest ih =>
    exact ih (ains e p.1 p.2) (nodupKeys_ains e p.1 p.2 h)

theorem mem_keysOf_aupd_left {α : Type} (e d : List (String × α)) (k : String)
    (h : k ∈ keysOf e) : k ∈ keysOf (aupd e d) := by
  induction d generalizing e with
  | nil => exact h
  | cons p rest ih =>
    exact ih (ains e p.1 p.2) (mem_keysOf_ains_mono e p.1 p.2 k h)

theorem mem_keysOf_aupd_right {α : Type} (e d : List (String × α)) (k : String)
    (h : k ∈ keysOf d) : k ∈ keysOf (aupd e d) := by
  induction d generalizing e with
  | nil => simp [keysOf] at h
  | cons p rest ih =>
    obtain ⟨k2, v2⟩ := p
    rw [mem_keysOf_cons] at h
    rcases h with h | h
    · subst h
      exact mem_keysOf_aupd_left (ains e k v2) rest k (mem_keysOf_ains_self e k v2)
    · exact ih (ains e k2 v2) h

theorem keysOf_aupd_of_subset {α : Type} (e d : List (String × α))
    (h : ∀ k ∈ keysOf d, k ∈ keysOf e) : keysOf (aupd e d) = keysOf e := by
  induction d generalizing e with
  | nil => rfl
  | cons p rest ih =>
    obtain ⟨k2, v2⟩ := p
    have hk2 : k2 ∈ keysOf e := h k2 (by rw [mem_keysOf_cons]; exact Or.inl rfl)
    have hkeys : keysOf (ains e k2 v2) = keysOf e := keysOf_ains_mem e k2 v2 hk2
    have hrest : ∀ k ∈ keysOf rest, k ∈ keysOf (ains e k2 v2) := by
      intro k hk
      rw [hkeys]
      exact h k (by rw [mem_keysOf_cons]; exact Or.inr hk)
    calc keysOf (aupd (ains e k2 v2) rest) = keysOf (ains e k2 v2) := ih (ains e k2 v2) hrest
      _ = keysOf e := hkeys

theorem assoc_ext {α : Type} : ∀ (l1 l2 : List (String × α)), nodupKeys l1 →
    keysOf l1 = keysOf l2 → (∀ k, aget l1 k = aget l2 k) → l1 = l2 := by
  intro l1
  induction l1 with
  | nil =>
    intro l2 _ hkeys _
    cases l2 with
    | nil => rfl
    | cons p r => simp [keysOf] at hkeys
  | cons p r1 ih =>
    intro l2 hnd hkeys hget
    obtain ⟨k, v⟩ := p
    cases l2 with
    | nil => simp [keysOf] at hkeys
    | cons q r2 =>
      obtain ⟨k2, v2⟩ := q
      simp only [keysOf, List.map_cons, List.cons.injEq] at hkeys
      obtain ⟨hk, hkr⟩ := hkeys
      subst hk
      have hv : v = v2 := by
        have := hget k
        simpa [aget] using this
      subst hv
      have hnotin : k ∉ keysOf r1 := by
        have := hnd
        simp only [nodupKeys, keysOf, List.map_cons, List.nodup_cons] at this
        exact this.1
      have hnotin2 : k ∉ keysOf r2 := by
        rw [show keysOf r2 = List.map Prod.fst r2 from rfl, ← hkr]
        exact hnotin
      have hndr : nodupKeys r1 := by
        have := hnd
        simp only [nodupKeys, keysOf, List.map_cons, List.nodup_cons] at this
        exact this.2
      have hgetr : ∀ k3, aget r1 k3 = aget r2 k3 := by
        intro k3
        by_cases h3 : k3 = k
        · subst h3
          rw [(aget_eq_none_iff r1 k3).2 hnotin, (aget_eq_none_iff r2 k3).2 hnotin2]
        · have hkk : k ≠ k3 := fun hh => h3 hh.symm
          have := hget k3
          simpa [aget, hkk] using this
      rw [ih r2 hndr hkr hgetr]

theorem aupd_append {α : Type} (e d1 d2 : List (String × α)) :
    aupd e (d1 ++ d2) = aupd (aupd e d1) d2 := by
  simp [aupd, List.foldl_append]

theorem aupd_absorb {α : Type} (d1 r : List (String × α)) (h : nodupKeys d1) :
    aupd (aupd d1 r) (d1 ++ r) = aupd d1 r := by
  have hnd : nodupKeys (aupd d1 r) := nodupKeys_aupd d1 r h
  apply assoc_ext _ _ (nodupKeys_aupd _ _ hnd)
  · apply keysOf_aupd_of_subset
    intro k hk
    rw [show keysOf (d1 ++ r) = keysOf d1 ++ keysOf r by simp [keysOf], List.mem_append] at hk
    rcases hk with hk | hk
    · exact mem_keysOf_aupd_left d1 r k hk
    · exact mem_keysOf_aupd_right d1 r k hk
  · intro k
    rw [aget_aupd, aget_aupd]
    have halast : alast (d1 ++ r) k = (alast r k).or (alast d1 k) := by
      simp only [alast, List.reverse_append]
      exact aget_append r.reverse d1.reverse k
    rw [halast, alast_eq_aget_of_nodup d1 k h]
    cases hr : alast r k with
    | some v => simp
    | none =>
      cases hd : aget d1 k with
      | some v => simp
      | none => simp

/-! ## Fusion idempotence (claim C7) -/

/-- Concatenation of a list of records: what a sequence of `dict.update`
calls amounts to. -/
def joinRecs : List DRec → DRec
  | [] => []
  | d :: ds => d ++ joinRecs ds

/-- The Tribune records of `t` filed under name `A`, in order. -/
def tribRecs (t : List DRec) (A : String) : List DRec :=
  t.filter (fun d => recName d = A)

/-- The entry the Tribune fold leaves under a name, as a function of the
previous entry and the records filed under that name. -/
def fold1Entry (prev : Option DRec) (ds : List DRec) : Option DRec :=
  match prev, ds with
  | some e, ds => some (aupd e (joinRecs ds))
  | none, [] => none
  | none, d :: ds => some (aupd d (joinRecs ds))

theorem aget_fuseStep1_ne (m : DistMap) (d : DRec) (A : String) (h : A ≠ recName d) :
    aget (fuseStep1 m d) A = aget m A := by
  unfold fuseStep1
  cases hg : aget m (recName d) with
  | none => exact aget_ains_ne m (recName d) d A h
  | some e => exact aget_ains_ne m (recName d) _ A h

theorem fold1_char (t : List DRec) (m : DistMap) (A : String) :
    aget (t.foldl fuseStep1 m) A = fold1Entry (aget m A) (tribRecs t A) := by
  induction t generalizing m with
  | nil =>
    cases h : aget m A <;> simp [fold1Entry, tribRecs, joinRecs, aupd, h]
  | cons d0 rest ih =>
    by_cases hA : recName d0 = A
    · subst hA
      have hfilter : tribRecs (d0 :: rest) (recName d0) = d0 :: tribRecs rest (recName d0) := by
        simp [tribRecs]
      rw [List.foldl_cons, ih (fuseStep1 m d0), hfilter]
      have hself : aget (fuseStep1 m d0) (recName d0) =
          some (match aget m (recName d0) with | none => d0 | some e => aupd e d0) := by
        unfold fuseStep1
        cases hg : aget m (recName d0) with
        | none => simp [aget_ains_self]
        | some e => simp [aget_ains_self]
      rw [hself]
      cases hm : aget m (recName d0) with
      | none => simp [fold1Entry]
      | some e =>
        simp only [fold1Entry]
        rw [show joinRecs (d0 :: tribRecs rest (recName d0)) =
          d0 ++ joinRecs (tribRecs rest (recName d0)) from rfl, aupd_append]
    · have hne : A ≠ recName d0 := fun hh => hA hh.symm
      have hfilter : tribRecs (d0 :: rest) A = tribRecs rest A := by
        simp [tribRecs, hA]
      rw [List.foldl_cons, ih (fuseStep1 m d0), hfilter, aget_fuseStep1_ne m d0 A hne]

theorem mem_keysOf_fuseStep1 (m : DistMap) (d : DRec) (k : String) (h : k ∈ keysOf m) :
    k ∈ keysOf (fuseStep1 m d) := by
  unfold fuseStep1
  cases aget m (recName d) with
  | none => exact mem_keysOf_ains_mono m (recName d) d k h
  | some e => exact mem_keysOf_ains_mono m (recName d) _ k h

theorem mem_keysOf_fuseStep2 (m : DistMap) (d : DRec) (k : String) (h : k ∈ keysOf m) :
    k ∈ keysOf (fuseStep2 m d) := by
  unfold fuseStep2
  cases aget m (recName d) with
  | none => exact mem_keysOf_ains_mono m (recName d) d k h
  | some e => exact h

theorem self_mem_fuseStep1 (m : DistMap) (d : DRec) :
    recName d ∈ keysOf (fuseStep1 m d) := by
  unfold fuseStep1
  cases hg : aget m (recName d) with
  | none => exact mem_keysOf_ains_self m (recName d) d
  | some e => exact mem_keysOf_ains_self m (recName d) _

theorem self_mem_fuseStep2 (m : DistMap) (d : DRec) :
    recName d ∈ keysOf (fuseStep2 m d) := by
  unfold fuseStep2
  cases hg : aget m (recName d) with
  | none => exact mem_keysOf_ains_self m (recName d) d
  | some e =>
    rw [← aget_isSome_iff_mem, hg]
    rfl

theorem fold1_keys_mono (t : List DRec) (m : DistMap) (k : String) (h : k ∈ keysOf m) :
    k ∈ keysOf (t.foldl fuseStep1 m) := by
  induction t generalizing m with
  | nil => exact h
  | cons d0 rest ih => exact ih (fuseStep1 m d0) (mem_keysOf_fuseStep1 m d0 k h)

theorem fold2_keys_mono (w : List DRec) (m : DistMap) (k : String) (h : k ∈ keysOf m) :
    k ∈ keysOf (w.foldl fuseStep2 m) := by
  induction w generalizing m with
  | nil => exact h
  | cons d0 rest ih => exact ih (fuseStep2 m d0) (mem_keysOf_fuseStep2 m d0 k h)

theorem fold1_names_mem (t : List DRec) (m : DistMap) (d : DRec) (hd : d ∈ t) :
    recName d ∈ keysOf (t.foldl fuseStep1 m) := by
  induction t generalizing m with
  | nil => cases hd
  | cons d0 rest ih =>
    rcases List.mem_cons.1 hd with h | h
    · subst h
      exact fold1_keys_mono rest (fuseStep1 m d) (recName d) (self_mem_fuseStep1 m d)
    · exact ih (fuseStep1 m d0) h

theorem fold2_names_mem (w : List DRec) (m : DistMap) (d : DRec) (hd : d ∈ w) :
    recName d ∈ keysOf (w.foldl fuseStep2 m) := by
  induction w generalizing m with
  | nil => cases hd
  | cons d0 rest ih =>
    rcases List.mem_cons.1 hd with h | h
    · subst h
      exact fold2_keys_mono rest (fuseStep2 m d) (recName d) (self_mem_fuseStep2 m d)
    · exact ih (fuseStep2 m d0) h

theorem nodupKeys_fuseStep1 (m : DistMap) (d : DRec) (h : nodupKeys m) :
    nodupKeys (fuseStep1 m d) := by
  unfold fuseStep1
  cases aget m (recName d) with
  | none => exact nodupKeys_ains m (recName d) d h
  | some e => exact nodupKeys_ains m (recName d) _ h

theorem nodupKeys_fuseStep2 (m : DistMap) (d : DRec) (h : nodupKeys m) :
    nodupKeys (fuseStep2 m d) := by
  unfold fuseStep2
  cases aget m (recName d) with
  | none => exact nodupKeys_ains m (recName d) d h
  | some e => exact h

theorem fold1_nodup (t : List DRec) (m : DistMap) (h : nodupKeys m) :
    nodupKeys (t.foldl fuseStep1 m) := by
  induction t generalizing m with
  | nil => exact h
  | cons d0 rest ih => exact ih (fuseStep1 m d0) (nodupKeys_fuseStep1 m d0 h)

theorem fold2_nodup (w : List DRec) (m : DistMap) (h : nodupKeys m) :
    nodupKeys (w.foldl fuseStep2 m) := by
  induction w generalizing m with
  | nil => exact h
  | cons d0 rest ih => exact ih (fuseStep2 m d0) (nodupKeys_fuseStep2 m d0 h)

theorem keysOf_fuseStep1_of_mem (m : DistMap) (d : DRec) (h : recName d ∈ keysOf m) :
    keysOf (fuseStep1 m d) = keysOf m := by
  unfold fuseStep1
  cases hg : aget m (recName d) with
  | none =>
    rw [aget_eq_none_iff] at hg
    exact absurd h hg
  | some e => exact keysOf_ains_mem m (recName d) _ h

theorem fold1_keysOf_of_mem (t : List DRec) (m : DistMap)
    (h : ∀ d ∈ t, recName d ∈ keysOf m) : keysOf (t.foldl fuseStep1 m) = keysOf m := by
  induction t generalizing m with
  | nil => rfl
  | cons d0 rest ih =>
    have h0 : keysOf (fuseStep1 m d0) = keysOf m :=
      keysOf_fuseStep1_of_mem m d0 (h d0 (List.mem_cons_self d0 rest))
    rw [List.foldl_cons, ih (fuseStep1 m d0) (fun d hd => by
      rw [h0]
      exact h d (List.mem_cons_of_mem d0 hd)), h0]

theorem aget_fuseStep2_of_isSome (m : DistMap) (d : DRec) (A : String)
    (h : (aget m A).isSome) : aget (fuseStep2 m d) A = aget m A := by
  unfold fuseStep2
  cases hg : aget m (recName d) with
  | some e => rfl
  | none =>
    have hne : A ≠ recName d := by
      intro hh
      rw [hh, hg] at h
      exact Bool.noConfusion h
    exact aget_ains_ne m (recName d) d A hne

theorem fold2_aget_of_isSome (w : List DRec) (m : DistMap) (A : String)
    (h : (aget m A).isSome) : aget (w.foldl fuseStep2 m) A = aget m A := by
  induction w generalizing m with
  | nil => rfl
  | cons d0 rest ih =>
    have hstep := aget_fuseStep2_of_isSome m d0 A h
    rw [List.foldl_cons, ih (fuseStep2 m d0) (by rw [hstep]; exact h), hstep]

theorem fold2_id (w : List DRec) (m : DistMap)
    (h : ∀ d ∈ w, (aget m (recName d)).isSome) : w.foldl fuseStep2 m = m := by
  induction w with
  | nil => rfl
  | cons d0 rest ih =>
    have h0 : fuseStep2 m d0 = m := by
      unfold fuseStep2
      cases hg : aget m (recName d0) with
      | none =>
        have := h d0 (List.mem_cons_self d0 rest)
        rw [hg] at this
        exact Bool.noConfusion this
      | some e => rfl
    rw [List.foldl_cons, h0, ih (fun d hd => h d (List.mem_cons_of_mem d0 hd))]

/-- Claim C7: fusing the same provider-list sequence twice yields the same
fused mapping as fusing it once — feeding the Tribune list and then the
Wikipedia list into the already-fused mapping leaves it unchanged.  The
hypothesis says every Tribune record is a genuine Python dict (no
duplicate keys). -/
theorem fusion_idempotent (t w : List DRec) (ht : ∀ d ∈ t, nodupKeys d) :
    w.foldl fuseStep2 (t.foldl fuseStep1 (fuseRun t w)) = fuseRun t w := by
  have hnil : nodupKeys ([] : DistMap) := by simp [nodupKeys, keysOf]
  have hm0 : fuseRun t w = w.foldl fuseStep2 (t.foldl fuseStep1 []) := rfl
  have hstep1 : t.foldl fuseStep1 (fuseRun t w) = fuseRun t w := by
    apply assoc_ext
    · exact fold1_nodup t _ (fold2_nodup w _ (fold1_nodup t [] hnil))
    · apply fold1_keysOf_of_mem
      intro d hd
      rw [hm0]
      exact fold2_keys_mono w _ _ (fold1_names_mem t [] d hd)
    · intro A
      rw [fold1_char]
      cases htA : tribRecs t A with
      | nil => cases hg : aget (fuseRun t w) A <;> simp [fold1Entry, joinRecs, aupd, hg]
      | cons d1 ds =>
        have hd1t : d1 ∈ t := by
          have hmem : d1 ∈ tribRecs t A := by
            rw [htA]
            exact List.mem_cons_self d1 ds
          exact List.mem_of_mem_filter hmem
        have hm1A : aget (t.foldl fuseStep1 ([] : DistMap)) A =
            some (aupd d1 (joinRecs ds)) := by
          have hc := fold1_char t [] A
          rw [htA] at hc
          simpa [aget, fold1Entry] using hc
        have hm0A : aget (fuseRun t w) A = some (aupd d1 (joinRecs ds)) := by
          rw [hm0, fold2_aget_of_isSome w _ A (by rw [hm1A]; rfl)]
          exact hm1A
        rw [hm0A]
        simp only [fold1Entry]
        rw [show joinRecs (d1 :: ds) = d1 ++ joinRecs ds from rfl]
        exact congrArg some (aupd_absorb d1 (joinRecs ds) (ht d1 hd1t))
  rw [hstep1]
  apply fold2_id
  intro d hd
  rw [aget_isSome_iff_mem, hm0]
  exact fold2_names_mem w _ d hd

/-- Claim C7 witness: a concrete run with an overlapping name refolded
into itself is unchanged. -/
theorem fusion_idempotent_witness :
    [[("name", "Frisco ISD"), ("source", "Wikipedia")]].foldl fuseStep2
        ([[("name", "Frisco ISD"), ("city", "Frisco")]].foldl fuseStep1
          (fuseRun [[("name", "Frisco ISD"), ("city", "Frisco")]]
            [[("name", "Frisco ISD"), ("source", "Wikipedia")]])) =
      fuseRun [[("name", "Frisco ISD"), ("city", "Frisco")]]
        [[("name", "Frisco ISD"), ("source", "Wikipedia")]] :=
  fusion_idempotent [[("name", "Frisco ISD"), ("city", "Frisco")]]
    [[("name", "Frisco ISD"), ("source", "Wikipedia")]] (by decide)

/-! ## Domain Finder (`DomainFinder`, lines 276-441)

String helpers first.  The district names involved are ASCII, where
`Char.toLower` agrees with Python `str.lower`; `replaceFuel` mirrors
Python `str.replace`, which rewrites non-overlapping occurrences left to
right (the fuel is at least the input length, so the `0` case is never
reached, and the patterns used are never empty).
-/

/-- Python `s.lower()` on ASCII text. -/
def lowerStr (s : String) : String := ⟨s.data.map Char.toLower⟩

/-- One left-to-right pass of Python `str.replace`, bounded by fuel. -/
def replaceFuel (pat rep : List Char) : Nat → List Char → List Char
  | _, [] => []
  | 0, l => l
  | fuel + 1, c :: rest =>
    if !pat.isEmpty && pat.isPrefixOf (c :: rest) then
      rep ++ replaceFuel pat rep fuel (rest.drop (pat.length - 1))
    else
      c :: replaceFuel pat rep fuel rest

/-- Python `s.replace(pat, rep)` for a non-empty pattern. -/
def strReplace (s pat rep : String) : String :=
  ⟨replaceFuel pat.data rep.data s.data.length s.data⟩

/-- The characters kept by `re.sub(r"[^a-z0-9]", "", s)`. -/
def isLowerAlnum (c : Char) : Bool :=
  (decide ('a' ≤ c) && decide (c ≤ 'z')) || (decide ('0' ≤ c) && decide (c ≤ '9'))

/-- `DomainFinder._make_slug`: lowercase the name, substitute the two
district phrases in the order the code applies them, drop spaces, strip
the remaining non-alphanumerics. -/
def make_slug (name : String) : String :=
  let s1 := lowerStr name
  let s2 := strReplace s1 " independent school district" "isd"
  let s3 := strReplace s2 " consolidated independent school district" "cisd"
  let s4 := strReplace s3 " " ""
  ⟨s4.data.filter isLowerAlnum⟩

/-- `DomainFinder.known_domains`: the static override table, in source
order.  The source dict literal lists "Northwest ISD" twice with the same
value; the association list keeps both entries, and lookups see the first. -/
def known_domains : List (String × String) :=
  [("Frisco ISD", "friscoisd.org"),
   ("Leander ISD", "leanderisd.org"),
   ("Round Rock ISD", "roundrockisd.org"),
   ("Keller ISD", "kellerisd.net"),
   ("Humble ISD", "humbleisd.net"),
   ("Prosper ISD", "prosper-isd.net"),
   ("Georgetown ISD", "georgetownisd.org"),
   ("Hays CISD", "hayscisd.net"),
   ("Aledo ISD", "aledoisd.org"),
   ("Dripping Springs ISD", "dsisdtx.us"),
   ("Lake Travis ISD", "ltisdschools.org"),
   ("Boerne ISD", "boerneisd.net"),
   ("Plano ISD", "pisd.edu"),
   ("McKinney ISD", "mckinneyisd.net"),
   ("Allen ISD", "allenisd.org"),
   ("Denton ISD", "dentonisd.org"),
   ("Northwest ISD", "nisdtx.org"),
   ("Mansfield ISD", "mansfieldisd.org"),
   ("Coppell ISD", "coppellisd.com"),
   ("Southlake Carroll ISD", "southlakecarroll.edu"),
   ("Grapevine-Colleyville ISD", "gcisd.net"),
   ("Highland Park ISD", "hpisd.org"),
   ("Eanes ISD", "eanesisd.net"),
   ("Wylie ISD", "wylieisd.net"),
   ("Lovejoy ISD", "lovejoyisd.com"),
   ("Rockwall ISD", "rockwallisd.com"),
   ("Midlothian ISD", "misd.gs"),
   ("Forney ISD", "forneyisd.net"),
   ("Little Elm ISD", "leisd.net"),
   ("Comal ISD", "comalisd.org"),
   ("Conroe ISD", "conroeisd.net"),
   ("Cypress-Fairbanks ISD", "cfisd.net"),
   ("Spring Branch ISD", "springbranchisd.com"),
   ("Klein ISD", "kleinisd.net"),
   ("Tomball ISD", "tomballisd.net"),
   ("Pearland ISD", "pearlandisd.org"),
   ("Clear Creek ISD", "ccisd.net"),
   ("Fort Bend ISD", "fortbendisd.com"),
   ("Katy ISD", "katyisd.org"),
   ("Lamar CISD", "lcisd.org"),
   ("Pasadena ISD", "pasadenaisd.org"),
   ("Spring ISD", "springisd.org"),
   ("Aldine ISD", "aldineisd.org"),
   ("Houston ISD", "houstonisd.org"),
   ("Dallas ISD", "dallasisd.org"),
   ("Fort Worth ISD", "fwisd.org"),
   ("Austin ISD", "austinisd.org"),
   ("San Antonio ISD", "saisd.net"),
   ("Arlington ISD", "aisd.net"),
   ("Garland ISD", "garlandisd.net"),
   ("Irving ISD", "irvingisd.net"),
   ("Mesquite ISD", "mesquiteisd.org"),
   ("Richardson ISD", "risd.org"),
   ("Carrollton-Farmers Branch ISD", "cfbisd.edu"),
   ("Lewisville ISD", "lisd.net"),
   ("Birdville ISD", "birdvilleschools.net"),
   ("Crowley ISD", "crowleyisdtx.org"),
   ("Eagle Mountain-Saginaw ISD", "emsisd.com"),
   ("Hurst-Euless-Bedford ISD", "hebisd.edu"),
   ("Northwest ISD", "nisdtx.org"),
   ("Waxahachie ISD", "wisd.org"),
   ("Weatherford ISD", "weatherfordisd.com"),
   ("Burleson ISD", "burleson.k12.tx.us"),
   ("Joshua ISD", "joshuaisd.org"),
   ("Cleburne ISD", "c-isd.com"),
   ("Granbury ISD", "granburyisd.org"),
   ("New Braunfels ISD", "nbisd.org"),
   ("Schertz-Cibolo-Universal City ISD", "scuc.txed.net"),
   ("Judson ISD", "judsonisd.org"),
   ("North East ISD", "neisd.net"),
   ("Northside ISD", "nisd.net"),
   ("San Marcos CISD", "smcisd.net"),
   ("Pflugerville ISD", "pfisd.net"),
   ("Manor ISD", "manorisd.net"),
   ("Del Valle ISD", "dvisd.net"),
   ("Cedar Park", "leanderisd.org"),
   ("Bastrop ISD", "bfrisk.org"),
   ("Lockhart ISD", "lockhartisd.org"),
   ("Seguin ISD", "seguinisd.net"),
   ("Killeen ISD", "killeenisd.org"),
   ("Temple ISD", "tisd.org"),
   ("Belton ISD", "bisd.net"),
   ("Waco ISD", "wacoisd.org"),
   ("Midway ISD", "midwayisd.org"),
   ("Bryan ISD", "bryanisd.org"),
   ("College Station ISD", "csisd.org"),
   ("Tyler ISD", "tylerisd.org"),
   ("Longview ISD", "lisd.org"),
   ("Nacogdoches ISD", "nacisd.org"),
   ("Lufkin ISD", "lufkinisd.org"),
   ("Texarkana ISD", "txkisd.net"),
   ("Amarillo ISD", "amaisd.org"),
   ("Lubbock ISD", "lubbockisd.org"),
   ("Midland ISD", "midlandisd.net"),
   ("Odessa", "ectorcountyisd.org"),
   ("Ector County ISD", "ectorcountyisd.org"),
   ("El Paso ISD", "episd.org"),
   ("Socorro ISD", "sisd.net"),
   ("Ysleta ISD", "yisd.net"),
   ("Corpus Christi ISD", "ccisd.us"),
   ("Flour Bluff ISD", "flourbluffschools.net"),
   ("Calallen ISD", "calallen.org"),
   ("Laredo ISD", "laredoisd.org"),
   ("United ISD", "uisd.net"),
   ("McAllen ISD", "mcallenisd.org"),
   ("Edinburg CISD", "ecisd.us"),
   ("Pharr-San Juan-Alamo ISD", "psjaisd.us"),
   ("Brownsville ISD", "bisd.us"),
   ("Harlingen CISD", "hcisd.org")]

/-- `DomainFinder.DOMAIN_PATTERNS`: candidate templates applied to a slug,
in order. -/
def DOMAIN_PATTERNS : List (String → String) :=
  [fun slug => slug ++ ".org",
   fun slug => slug ++ ".net",
   fun slug => slug ++ ".us",
   fun slug => "www." ++ slug ++ ".org",
   fun slug => "www." ++ slug ++ ".net",
   fun slug => slug ++ "schools.org",
   fun slug => slug ++ "schools.net"]

/-- The probe loop of `find_domain`: try each pattern in order, returning
the first candidate the reachability check accepts ("" when all fail),
together with the list of candidates actually probed.  `check` abstracts
`DomainFinder._check_domain` (an external HEAD request). -/
def tryPatterns (check : String → Bool) (slug : String) :
    List (String → String) → String × List String
  | [] => ("", [])
  | p :: rest =>
    let dom := p slug
    if check dom then (dom, [dom])
    else
      let r := tryPatterns check slug rest
      (r.1, dom :: r.2)

/-- `DomainFinder.find_domain`: override table first, then slug + probes.
Returns the chosen domain and the candidates probed. -/
def find_domain (check : String → Bool) (district_name : String) : String × List String :=
  match aget known_domains district_name with
  | some d => (d, [])
  | none => tryPatterns check (make_slug district_name) DOMAIN_PATTERNS

/-- Claim C6: a district name present in the static override table
resolves directly to the table's value: no candidate domain is probed,
and the result does not depend on the reachability check at all. -/
theorem find_domain_override (check check2 : String → Bool) (name d : String)
    (h : aget known_domains name = some d) :
    find_domain check name = (d, []) ∧ find_domain check name = find_domain check2 name := by
  constructor
  · simp [find_domain, h]
  · simp [find_domain, h]

/-- Claim C6 witness: `"Leander ISD"` resolves to `"leanderisd.org"` under
a reachability check that rejects everything, and equally under one that
accepts everything. -/
theorem find_domain_override_witness :
    find_domain (fun _ => false) "Leander ISD" = ("leanderisd.org", []) ∧
    find_domain (fun _ => false) "Leander ISD" = find_domain (fun _ => true) "Leander ISD" :=
  find_domain_override (fun _ => false) (fun _ => true) "Leander ISD" "leanderisd.org" (by decide)

/-- Claim C4: evaluation of `_make_slug` at the claim's example.  The
`" independent school district" → "isd"` substitution runs first and
consumes the tail of `" consolidated independent school district"`, so the
`"cisd"` substitution (dead code in the source order) never applies: the
slug is `"haysconsolidatedisd"`, not the claimed `"hayscisd"`.  For a name
containing only the plain phrase the `"isd"` substitution works as
claimed. -/
theorem make_slug_cisd_dead :
    make_slug "Hays Consolidated Independent School District" = "haysconsolidatedisd" ∧
    make_slug "Hays Consolidated Independent School District" ≠ "hayscisd" ∧
    make_slug "Frisco Independent School District" = "friscoisd" ∧
    make_slug "Frisco ISD" = "friscoisd" := by
  refine ⟨by decide, by decide, by decide, by decide⟩

/-! ## Enrichment Engine (`clay_enrichment.py`) -/

/-- Is `n` a contiguous run of `h` (`n in h` on the char lists)? -/
def containsSub (n : List Char) : List Char → Bool
  | [] => n.isEmpty
  | c :: rest => n.isPrefixOf (c :: rest) || containsSub n rest

/-- Python `needle in hay` for strings. -/
def strContains (hay needle : String) : Bool := containsSub needle.data hay.data

/-- Persona classification inside `EnrichmentPipeline.enrich_district`
(lines 396-405): lowercase the title, then the first matching branch
wins. -/
def classifyPersona (title : String) : String :=
  let t := lowerStr title
  if strContains t "superintendent" then "superintendent"
  else if strContains t "safety" || strContains t "security" || strContains t "police" then
    "safety_director"
  else if strContains t "coo" || strContains t "operations" then "coo"
  else "other"

/-- Persona classification as §4.3 of the spec words it: an ordered rule
table of keyword lists, case-insensitive substring match, first match
wins, default `other`.  This definition follows the spec's words, to be
compared with `classifyPersona`, which is translated from the code. -/
def personaRules : List (List String × String) :=
  [(["superintendent"], "superintendent"),
   (["safety", "security", "police"], "safety_director"),
   (["coo", "operations"], "coo")]

/-- First matching rule of the spec's persona table, default `other`. -/
def personaSpec (title : String) : String :=
  (personaRules.findSome? (fun rule =>
    if rule.1.any (fun kw => strContains (lowerStr title) kw) then some rule.2
    else none)).getD "other"

/-- Claim C5: persona classification is a total deterministic function of
the title, equal to the spec's ordered first-match-wins rule table, and
produces the four documented examples. -/
theorem classifyPersona_matches_spec :
    (∀ title, classifyPersona title = personaSpec title) ∧
    classifyPersona "Chief of Police" = "safety_director" ∧
    classifyPersona "Chief Operations Officer" = "coo" ∧
    classifyPersona "Superintendent of Schools" = "superintendent" ∧
    classifyPersona "Executive Assistant" = "other" := by
  refine ⟨?_, by decide, by decide, by decide, by decide⟩
  intro title
  unfold classifyPersona personaSpec personaRules
  cases h1 : strContains (lowerStr title) "superintendent" <;>
    cases h2 : strContains (lowerStr title) "safety" <;>
      cases h3 : strContains (lowerStr title) "security" <;>
        cases h4 : strContains (lowerStr title) "police" <;>
          cases h5 : strContains (lowerStr title) "coo" <;>
            cases h6 : strContains (lowerStr title) "operations" <;>
              simp [List.findSome?, h1, h2, h3, h4, h5, h6]

/-- A person record returned by the people-search capability: a Python
dict with string values. -/
abbrev PRec := List (String × String)

/-- A district record as the enrichment pipeline sees it: string-valued
scalar fields plus the list-valued `contacts` key (`none` when the key is
absent from the dict). -/
structure EDistrict where
  fields : List (String × String)
  contacts : Option (List PRec)
deriving DecidableEq

/-- Python truthiness of `district.get("domain")`: false for a missing
key and for the empty string. -/
def truthyStr : Option String → Bool
  | none => false
  | some s => !(s == "")

/-- An external call the live pipeline can make. -/
inductive ApiCall
  | findPeople (domain : String)
  | enrichPerson (p : PRec)
deriving DecidableEq

/-- `EnrichmentPipeline.enrich_district` in live mode, with the Clay
client abstracted: `fp` is `ClayClient.find_people`, `ep` is
`ClayClient.enrich_person`.  Returns the updated district and the external
calls made.  The no-domain branch is the early `return district` of line
376. -/
def enrich_district (fp : String → List PRec) (ep : PRec → PRec)
    (district : EDistrict) : EDistrict × List ApiCall :=
  let dom := aget district.fields "domain"
  if truthyStr dom then
    let domain := dom.getD ""
    let people := fp domain
    let contacts := people.map (fun person =>
      let persona := classifyPersona ((aget person "title").getD "")
      ains (ep person) "persona" persona)
    ({ district with contacts := some contacts },
      ApiCall.findPeople domain :: people.map ApiCall.enrichPerson)
  else (district, [])

/-- Claim C3 counterexample: a district without a domain key comes back
from `enrich_district` with no contacts key attached (`none`), which is
not the claimed empty contact list (`some []`); no external call is made. -/
theorem enrich_no_domain_cex :
    (enrich_district (fun _ => [[("title", "Superintendent")]]) (fun p => p)
        ⟨[("district_name", "X")], none⟩) =
      (⟨[("district_name", "X")], none⟩, []) ∧
    (none : Option (List PRec)) ≠ some [] := by
  constructor
  · rfl
  · decide

/-- Claim C3 (amended): for every district whose domain field is missing,
null or empty, `enrich_district` makes no external call (neither
`find_people` nor `enrich_person` is invoked) and returns the record
entirely unchanged — in particular no contact list, empty or otherwise,
is attached. -/
theorem enrich_no_domain (fp : String → List PRec) (ep : PRec → PRec)
    (d : EDistrict) (h : truthyStr (aget d.fields "domain") = false) :
    enrich_district fp ep d = (d, []) := by
  simp [enrich_district, h]

/-- Claim C3 witness: a district with an empty domain string is returned
unchanged with no calls, even against a client that would return people. -/
theorem enrich_no_domain_witness :
    enrich_district (fun _ => [[("title", "Superintendent")]]) (fun p => p)
        ⟨[("domain", "")], none⟩ =
      (⟨[("domain", "")], none⟩, []) :=
  enrich_no_domain (fun _ => [[("title", "Superintendent")]]) (fun p => p)
    ⟨[("domain", "")], none⟩ (by decide)

/-! ## Relational sink (`save_to_postgres`, lines 494-546)

The two `ON CONFLICT` upserts are modelled over in-memory tables.  A
conflict fires only when both the incoming and the stored key are non-null
and equal (SQL NULLs never conflict).  The `enriched_at` timestamp column
(`NOW()`) is wall-clock time and is left out of the model; no claim
mentions it. -/

/-- A contact dict as `save_to_postgres` reads it (each `contact.get(...)`
may be absent). -/
structure Contact where
  full_name : Option String
  first_name : Option String
  last_name : Option String
  title : Option String
  email : Option String
  phone : Option String
  linkedin_url : Option String
  persona : Option String
deriving DecidableEq

/-- An input district as `save_to_postgres` reads it. -/
structure SDistrict where
  district_name : Option String
  domain : Option String
  enrollment : Option Int
  contacts : List Contact
deriving DecidableEq

/-- A row of the `districts` table (`id` generated, unique `domain`). -/
structure DistRow where
  id : Nat
  domain : Option String
  district_name : Option String
  enrollment : Option Int
deriving DecidableEq

/-- A row of the `leads` table (unique `email`, parent `district_id`). -/
structure LeadRow where
  district_id : Nat
  full_name : Option String
  first_name : Option String
  last_name : Option String
  title : Option String
  email : Option String
  phone : Option String
  linkedin_url : Option String
  persona : Option String
deriving DecidableEq

/-- The relational store: an id sequence and the two tables. -/
structure PGState where
  nextId : Nat
  districts : List DistRow
  leads : List LeadRow
deriving DecidableEq

/-- An empty database. -/
def emptyDB : PGState := ⟨0, [], []⟩

/-- Does an incoming `domain` value conflict with a stored row? -/
def domConflict (dom : Option String) (row : DistRow) : Bool :=
  match dom, row.domain with
  | some d1, some d2 => d1 == d2
  | _, _ => false

/-- Does an incoming `email` value conflict with a stored row? -/
def emailConflict (em : Option String) (row : LeadRow) : Bool :=
  match em, row.email with
  | some e1, some e2 => e1 == e2
  | _, _ => false

/-- The districts upsert: `INSERT ... ON CONFLICT (domain) DO UPDATE SET
district_name = EXCLUDED.district_name, enrollment = EXCLUDED.enrollment
RETURNING id`. -/
def upsertDistrict (db : PGState) (name dom : Option String) (enr : Option Int) :
    PGState × Nat :=
  match db.districts.find? (fun r => domConflict dom r) with
  | some row =>
    ({ db with districts := db.districts.map (fun r =>
        if domConflict dom r then { r with district_name := name, enrollment := enr }
        else r) },
      row.id)
  | none =>
    ({ db with
        nextId := db.nextId + 1
        districts := db.districts ++ [⟨db.nextId, dom, name, enr⟩] },
      db.nextId)

/-- The leads upsert: `INSERT ... ON CONFLICT (email) DO UPDATE SET
title = EXCLUDED.title, phone = EXCLUDED.phone,
linkedin_url = EXCLUDED.linkedin_url` — district_id, name parts and
persona are not in the update list. -/
def upsertLead (db : PGState) (did : Nat) (c : Contact) : PGState :=
  match db.leads.find? (fun r => emailConflict c.email r) with
  | some _ =>
    { db with leads := db.leads.map (fun r =>
        if emailConflict c.email r then
          { r with title := c.title, phone := c.phone, linkedin_url := c.linkedin_url }
        else r) }
  | none =>
    { db with leads := db.leads ++
        [⟨did, c.full_name, c.first_name, c.last_name, c.title, c.email, c.phone,
          c.linkedin_url, c.persona⟩] }

/-- One iteration of the outer loop of `save_to_postgres`: upsert the
district, then upsert each of its contacts under the returned id. -/
def saveDistrict (db : PGState) (d : SDistrict) : PGState :=
  let r := upsertDistrict db d.district_name d.domain d.enrollment
  d.contacts.foldl (fun acc c => upsertLead acc r.2 c) r.1

/-- `save_to_postgres`: fold the enriched list into the store. -/
def save_to_postgres (enriched : List SDistrict) (db : PGState) : PGState :=
  enriched.foldl saveDistrict db

/-- Claim C8 counterexample: the same email pushed twice with a different
`full_name` keeps the first write's `full_name` — the leads upsert only
updates title, phone and linkedin_url, so not every non-identity field of
the second write is applied. -/
theorem upsert_second_write_cex :
    (save_to_postgres
        [⟨some "Leander ISD", some "leanderisd.org", some 42000,
          [⟨some "Bob B", some "Bob", some "B", some "COO", some "a@leanderisd.org",
            some "2", some "l2", some "coo"⟩]⟩]
        (save_to_postgres
          [⟨some "Leander ISD", some "leanderisd.org", some 42000,
            [⟨some "Alice A", some "Alice", some "A", some "Supt", some "a@leanderisd.org",
              some "1", some "l1", some "superintendent"⟩]⟩]
          emptyDB)).leads.map (fun r => r.full_name) = [some "Alice A"] ∧
    some "Alice A" ≠ some "Bob B" := by
  constructor
  · rfl
  · decide

/-- Claim C8 (amended): pushing two districts with the same non-null
domain, each carrying one contact with the same non-null email, leaves
exactly one district row and one lead row.  The district row takes the
second write's district_name and enrollment (all its non-identity
columns) with its id unchanged; the lead row takes the second write's
title, phone and linkedin_url — the upsert's mutable columns — while its
full_name, first_name, last_name, persona and district_id keep the first
write's values, and the email key is unchanged. -/
theorem upsert_second_write (n1 n2 : Option String) (dom : String)
    (e1 e2 : Option Int) (c1 c2 : Contact) (em : String)
    (h1 : c1.email = some em) (h2 : c2.email = some em) :
    save_to_postgres [⟨n2, some dom, e2, [c2]⟩]
        (save_to_postgres [⟨n1, some dom, e1, [c1]⟩] emptyDB) =
      ⟨1, [⟨0, some dom, n2, e2⟩],
        [⟨0, c1.full_name, c1.first_name, c1.last_name, c2.title, some em, c2.phone,
          c2.linkedin_url, c1.persona⟩]⟩ := by
  simp [save_to_postgres, saveDistrict, upsertDistrict, upsertLead, domConflict,
    emailConflict, emptyDB, h1, h2, List.find?]

/-- Claim C8 witness: the amended upsert behaviour at concrete values. -/
theorem upsert_second_write_witness :
    save_to_postgres
        [⟨some "Leander ISD", some "leanderisd.org", some 42001,
          [⟨some "Bob B", some "Bob", some "B", some "COO", some "a@leanderisd.org",
            some "2", some "l2", some "coo"⟩]⟩]
        (save_to_postgres
          [⟨some "Leander Isd", some "leanderisd.org", some 42000,
            [⟨some "Alice A", some "Alice", some "A", some "Supt", some "a@leanderisd.org",
              some "1", some "l1", some "superintendent"⟩]⟩]
          emptyDB) =
      ⟨1, [⟨0, some "leanderisd.org", some "Leander ISD", some 42001⟩],
        [⟨0, some "Alice A", some "Alice", some "A", some "COO", some "a@leanderisd.org",
          some "2", some "l2", some "superintendent"⟩]⟩ :=
  upsert_second_write (some "Leander Isd") (some "Leander ISD") "leanderisd.org"
    (some 42000) (some 42001)
    ⟨some "Alice A", some "Alice", some "A", some "Supt", some "a@leanderisd.org",
      some "1", some "l1", some "superintendent"⟩
    ⟨some "Bob B", some "Bob", some "B", some "COO", some "a@leanderisd.org",
      some "2", some "l2", some "coo"⟩
    "a@leanderisd.org" rfl rfl

/-! ## Campaign push (`instantly_push.py`) -/

/-- A lead dict as the push pipeline reads it: `lead["email"]` is always
read directly, `persona` may be absent (`lead.get("persona",
"superintendent")`), and the remaining fields are read with defaulting
`get`s. -/
structure Lead where
  email : String
  persona : Option String
  first_name : String
  last_name : String
  company_name : String
  title : String
  custom_variables : List (String × String)
deriving DecidableEq

/-- The static persona → campaign-id table `CAMPAIGNS`. -/
def CAMPAIGNS : List (String × String) :=
  [("superintendent", "camp_tx_superintendents_q1_2026"),
   ("safety_director", "camp_tx_safety_directors_q1_2026")]

/-- The `results` counters built by `InstantlyPushPipeline.run`. -/
structure PushResults where
  total : Nat
  success : Nat
  failed : Nat
  by_campaign : List (String × Nat)
deriving DecidableEq

/-- The loop body of `InstantlyPushPipeline.run`: look the persona up in
the campaign mapping (defaulting the persona to "superintendent"), skip
and count as failed when `not campaign_id` (missing entry or empty
string), otherwise push and count by outcome.  `pushOk` abstracts the
success of `push_lead` (always true in demo mode, response-dependent
live); the last component is the list of `push_lead` invocations made. -/
def pushLoop (pushOk : Lead → String → Bool) (mapping : List (String × String)) :
    List Lead → PushResults → List (Lead × String) → PushResults × List (Lead × String)
  | [], r, log => (r, log)
  | lead :: rest, r, log =>
    match aget mapping (lead.persona.getD "superintendent") with
    | none => pushLoop pushOk mapping rest { r with failed := r.failed + 1 } log
    | some cid =>
      if cid = "" then pushLoop pushOk mapping rest { r with failed := r.failed + 1 } log
      else if pushOk lead cid then
        pushLoop pushOk mapping rest
          { r with
              success := r.success + 1
              by_campaign := ains r.by_campaign cid ((aget r.by_campaign cid).getD 0 + 1) }
          (log ++ [(lead, cid)])
      else
        pushLoop pushOk mapping rest { r with failed := r.failed + 1 } (log ++ [(lead, cid)])

/-- `InstantlyPushPipeline.run`: counters start at `total = len(leads)`,
zero success/failed, empty per-campaign map and push log. -/
def runPush (pushOk : Lead → String → Bool) (leads : List Lead)
    (mapping : List (String × String)) : PushResults × List (Lead × String) :=
  pushLoop pushOk mapping leads ⟨leads.length, 0, 0, []⟩ []

/-- The campaign id a lead is routed to, `none` when the loop skips it
(missing mapping entry, or an entry that is the empty string). -/
def cidOf (mapping : List (String × String)) (lead : Lead) : Option String :=
  match aget mapping (lead.persona.getD "superintendent") with
  | none => none
  | some c => if c = "" then none else some c

/-- Does the loop count this lead as a success? -/
def goodPush (pushOk : Lead → String → Bool) (mapping : List (String × String))
    (lead : Lead) : Bool :=
  match cidOf mapping lead with
  | none => false
  | some c => pushOk lead c

/-- The `push_lead` invocation a lead gives rise to, if any. -/
def attemptOf (mapping : List (String × String)) (lead : Lead) :
    Option (Lead × String) :=
  (cidOf mapping lead).map (fun c => (lead, c))

theorem filter_length_split {α : Type} (p : α → Bool) (l : List α) :
    (l.filter p).length + (l.filter (fun a => !(p a))).length = l.length := by
  induction l with
  | nil => rfl
  | cons a rest ih =>
    cases h : p a <;> simp [List.filter_cons, h, ← ih] <;> omega

theorem pushLoop_char (pushOk : Lead → String → Bool)
    (mapping : List (String × String)) (ls : List Lead) :
    ∀ (r : PushResults) (log : List (Lead × String)),
    (pushLoop pushOk mapping ls r log).1.total = r.total ∧
    (pushLoop pushOk mapping ls r log).1.success =
      r.success + (ls.filter (goodPush pushOk mapping)).length ∧
    (pushLoop pushOk mapping ls r log).1.failed =
      r.failed + (ls.filter (fun l => !(goodPush pushOk mapping l))).length ∧
    (pushLoop pushOk mapping ls r log).2 = log ++ ls.filterMap (attemptOf mapping) := by
  induction ls with
  | nil => intro r log; simp [pushLoop]
  | cons lead rest ih =>
    intro r log
    cases hm : aget mapping (lead.persona.getD "superintendent") with
    | none =>
      have hcid : cidOf mapping lead = none := by simp [cidOf, hm]
      have hgood : goodPush pushOk mapping lead = false := by simp [goodPush, hcid]
      have hatt : attemptOf mapping lead = none := by simp [attemptOf, hcid]
      have hunfold : pushLoop pushOk mapping (lead :: rest) r log =
          pushLoop pushOk mapping rest { r with failed := r.failed + 1 } log := by
        simp [pushLoop, hm]
      have hrec := ih { r with failed := r.failed + 1 } log
      rw [hunfold]
      refine ⟨hrec.1, ?_, ?_, ?_⟩
      · rw [hrec.2.1]
        simp [List.filter_cons, hgood]
      · rw [hrec.2.2.1]
        simp [List.filter_cons, hgood]
        omega
      · rw [hrec.2.2.2]
        simp [List.filterMap_cons, hatt]
    | some cid =>
      by_cases hc : cid = ""
      · subst hc
        have hcid : cidOf mapping lead = none := by simp [cidOf, hm]
        have hgood : goodPush pushOk mapping lead = false := by simp [goodPush, hcid]
        have hatt : attemptOf mapping lead = none := by simp [attemptOf, hcid]
        have hunfold : pushLoop pushOk mapping (lead :: rest) r log =
            pushLoop pushOk mapping rest { r with failed := r.failed + 1 } log := by
          simp [pushLoop, hm]
        have hrec := ih { r with failed := r.failed + 1 } log
        rw [hunfold]
        refine ⟨hrec.1, ?_, ?_, ?_⟩
        · rw [hrec.2.1]
          simp [List.filter_cons, hgood]
        · rw [hrec.2.2.1]
          simp [List.filter_cons, hgood]
          omega
        · rw [hrec.2.2.2]
          simp [List.filterMap_cons, hatt]
      · have hcid : cidOf mapping lead = some cid := by simp [cidOf, hm, hc]
        have hatt : attemptOf mapping lead = some (lead, cid) := by
          simp [attemptOf, hcid]
        cases hp : pushOk lead cid with
        | true =>
          have hgood : goodPush pushOk mapping lead = true := by
            simp [goodPush, hcid, hp]
          have hunfold : pushLoop pushOk mapping (lead :: rest) r log =
              pushLoop pushOk mapping rest
                { r with
                    success := r.success + 1
                    by_campaign :=
                      ains r.by_campaign cid ((aget r.by_campaign cid).getD 0 + 1) }
                (log ++ [(lead, cid)]) := by
            simp [pushLoop, hm, hc, hp]
          have hrec := ih
            { r with
                success := r.success + 1
                by_campaign :=
                  ains r.by_campaign cid ((aget r.by_campaign cid).getD 0 + 1) }
            (log ++ [(lead, cid)])
          rw [hunfold]
          refine ⟨hrec.1, ?_, ?_, ?_⟩
          · rw [hrec.2.1]
            simp [List.filter_cons, hgood]
            omega
          · rw [hrec.2.2.1]
            simp [List.filter_cons, hgood]
          · rw [hrec.2.2.2]
            simp [List.filterMap_cons, hatt]
        | false =>
          have hgood : goodPush pushOk mapping lead = false := by
            simp [goodPush, hcid, hp]
          have hunfold : pushLoop pushOk mapping (lead :: rest) r log =
              pushLoop pushOk mapping rest { r with failed := r.failed + 1 }
                (log ++ [(lead, cid)]) := by
            simp [pushLoop, hm, hc, hp]
          have hrec := ih { r with failed := r.failed + 1 } (log ++ [(lead, cid)])
          rw [hunfold]
          refine ⟨hrec.1, ?_, ?_, ?_⟩
          · rw [hrec.2.1]
            simp [List.filter_cons, hgood]
          · rw [hrec.2.2.1]
            simp [List.filter_cons, hgood]
            omega
          · rw [hrec.2.2.2]
            simp [List.filterMap_cons, hatt]

/-- Claim C9: `InstantlyPushPipeline.run` reports `total` equal to the
number of input leads with `success + failed = total`; the successes are
exactly the routed leads whose push succeeded, the failures the rest; the
`push_lead` calls are exactly the routed leads in order; and a lead whose
persona (defaulting to "superintendent") has no campaign-mapping entry is
never pushed and falls in the failed count. -/
theorem push_run_accounting (pushOk : Lead → String → Bool) (leads : List Lead)
    (mapping : List (String × String)) :
    (runPush pushOk leads mapping).1.total = leads.length ∧
    (runPush pushOk leads mapping).1.success + (runPush pushOk leads mapping).1.failed =
      leads.length ∧
    (runPush pushOk leads mapping).1.success =
      (leads.filter (goodPush pushOk mapping)).length ∧
    (runPush pushOk leads mapping).1.failed =
      (leads.filter (fun l => !(goodPush pushOk mapping l))).length ∧
    (runPush pushOk leads mapping).2 = leads.filterMap (attemptOf mapping) ∧
    (∀ l ∈ leads, aget mapping (l.persona.getD "superintendent") = none →
      attemptOf mapping l = none ∧ goodPush pushOk mapping l = false) := by
  have h := pushLoop_char pushOk mapping leads ⟨leads.length, 0, 0, []⟩ []
  refine ⟨h.1, ?_, ?_, ?_, ?_, ?_⟩
  · have hs := h.2.1
    have hf := h.2.2.1
    have hsplit := filter_length_split (goodPush pushOk mapping) leads
    simp only [runPush] at *
    omega
  · simpa [runPush] using h.2.1
  · simpa [runPush] using h.2.2.1
  · simpa [runPush] using h.2.2.2
  · intro l _ hnone
    have hcid : cidOf mapping l = none := by simp [cidOf, hnone]
    exact ⟨by simp [attemptOf, hcid], by simp [goodPush, hcid]⟩

/-! ## CSV lead loader (`load_leads_from_csv`, lines 346-371) -/

/-- The lead dict built for one CSV row whose email value is `e`
(non-falsy): every other column is read with a defaulting `get`;
`company_name` uses `row.get("district_name", row.get("company_name",
""))`. -/
def mkLead (row : List (String × String)) (e : String) : Lead :=
  { email := e
    persona := some ((aget row "persona").getD "superintendent")
    first_name := (aget row "first_name").getD ""
    last_name := (aget row "last_name").getD ""
    company_name := (aget row "district_name").getD ((aget row "company_name").getD "")
    title := (aget row "title").getD ""
    custom_variables :=
      [("enrollment", (aget row "enrollment").getD ""),
       ("city", (aget row "city").getD ""),
       ("district_name", (aget row "district_name").getD "")] }

/-- `load_leads_from_csv`: walk the rows in order, skip a row when
`not row.get("email")` (missing or empty), otherwise emit one lead. -/
def load_leads_from_csv : List (List (String × String)) → List Lead
  | [] => []
  | row :: rest =>
    match aget row "email" with
    | none => load_leads_from_csv rest
    | some e =>
      if e = "" then load_leads_from_csv rest
      else mkLead row e :: load_leads_from_csv rest

/-- Claim C10: the loader is exactly an order-preserving `filterMap`
— each row with a missing or empty email column is dropped, every other
row yields exactly one lead carrying that row's email — and every
returned lead has a non-empty email. -/
theorem load_leads_email_invariant (rows : List (List (String × String))) :
    load_leads_from_csv rows =
      rows.filterMap (fun row =>
        match aget row "email" with
        | none => none
        | some e => if e = "" then none else some (mkLead row e)) ∧
    ∀ l ∈ load_leads_from_csv rows, l.email ≠ "" := by
  constructor
  · induction rows with
    | nil => rfl
    | cons row rest ih =>
      cases hg : aget row "email" with
      | none => simp [load_leads_from_csv, List.filterMap_cons, hg, ih]
      | some e =>
        by_cases he : e = ""
        · subst he
          simp [load_leads_from_csv, List.filterMap_cons, hg, ih]
        · simp [load_leads_from_csv, List.filterMap_cons, hg, he, ih]
  · induction rows with
    | nil => intro l hl; cases hl
    | cons row rest ih =>
      intro l hl
      cases hg : aget row "email" with
      | none =>
        rw [show load_leads_from_csv (row :: rest) = load_leads_from_csv rest by
          simp [load_leads_from_csv, hg]] at hl
        exact ih l hl
      | some e =>
        by_cases he : e = ""
        · subst he
          rw [show load_leads_from_csv (row :: rest) = load_leads_from_csv rest by
            simp [load_leads_from_csv, hg]] at hl
          exact ih l hl
        · rw [show load_leads_from_csv (row :: rest) =
              mkLead row e :: load_leads_from_csv rest by
            simp [load_leads_from_csv, hg, he]] at hl
          rcases List.mem_cons.1 hl with h | h
          · subst h
            simpa [mkLead] using he
          · exact ih l h

/-- Claim C9 witness: a lead with the unmapped persona `other` gives rise
to no `push_lead` call and is not counted as a success. -/
theorem push_run_accounting_witness :
    attemptOf CAMPAIGNS ⟨"x@y.org", some "other", "", "", "", "", []⟩ = none ∧
    goodPush (fun _ _ => true) CAMPAIGNS ⟨"x@y.org", some "other", "", "", "", "", []⟩ = false :=
  (push_run_accounting (fun _ _ => true) [⟨"x@y.org", some "other", "", "", "", "", []⟩]
      CAMPAIGNS).2.2.2.2.2
    ⟨"x@y.org", some "other", "", "", "", "", []⟩ (by simp) (by decide)

/-- Claim C10 witness: the lead loaded from a concrete one-row CSV has a
non-empty email. -/
theorem load_leads_email_invariant_witness :
    (mkLead [("email", "a@b.org")] "a@b.org").email ≠ "" :=
  (load_leads_email_invariant [[("email", "a@b.org")]]).2
    (mkLead [("email", "a@b.org")] "a@b.org") (by decide)
